import Mathlib

/-!
Verification of the namespace interface repository
(`src/clustering/administration/namespace_interface_repository.cc`).

The C++ code is shallowly embedded: `std::map` becomes an association
list mutated by an overwriting insert, the reference-counted cache entry
becomes a record over `Int` (C++ `int`) with its two optional
edge-triggered `cond_t` pointers, and the cooperative-concurrency parts
(the keep-alive loop of `create_and_destroy_namespace_interface`, the
find-or-create logic of `get_namespace_interface`) become explicit state
passing driven by lists of events.
-/

/-! ## Identifier types (opaque in the source; `Nat` here) -/

abbrev namespace_id_t := Nat
abbrev machine_id_t := Nat
abbrev peer_id_t := Nat

/-- `key_range_t`: a half-open interval over the key space. Its internal
structure is never inspected by this file's code; only equality of ranges
matters (as `std::map` keys). -/
abbrev key_range_t := Nat × Nat

/-- `region_t` carries a hash-range besides the key range; the projection
code reads only `.inner`. -/
structure region_t where
  hash_beg : Nat
  hash_end : Nat
  inner : key_range_t
deriving DecidableEq, Repr

inductive blueprint_role_t where
  | blueprint_role_primary
  | blueprint_role_secondary
  | blueprint_role_nothing
deriving DecidableEq, Repr

/-! ## `std::map` as an association list

A `std::map` is modelled as a `List (α × β)` with unique keys; the list
order stands for the map's iteration order. `stdMapInsert` is
`operator[] ... = v` (overwrite-or-append), `stdMapFind` is `find`,
`stdMapErase` is `erase`. -/

def stdMapFind {α β : Type} [DecidableEq α] (k : α) : List (α × β) → Option β
  | [] => none
  | (a, b) :: rest => if a = k then some b else stdMapFind k rest

def stdMapInsert {α β : Type} [DecidableEq α] (k : α) (v : β) : List (α × β) → List (α × β)
  | [] => [(k, v)]
  | (a, b) :: rest => if a = k then (a, v) :: rest else (a, b) :: stdMapInsert k v rest

def stdMapErase {α β : Type} [DecidableEq α] (k : α) : List (α × β) → List (α × β)
  | [] => []
  | (a, b) :: rest => if a = k then rest else (a, b) :: stdMapErase k rest

theorem stdMapFind_insert_self {α β : Type} [DecidableEq α] (k : α) (v : β)
    (m : List (α × β)) : stdMapFind k (stdMapInsert k v m) = some v := by
  induction m with
  | nil => simp [stdMapInsert, stdMapFind]
  | cons hd tl ih =>
    obtain ⟨a, b⟩ := hd
    by_cases h : a = k
    · simp [stdMapInsert, stdMapFind, h]
    · simp [stdMapInsert, stdMapFind, h, ih]

theorem stdMapFind_insert_ne {α β : Type} [DecidableEq α] (k k' : α) (v : β)
    (m : List (α × β)) (hne : k' ≠ k) :
    stdMapFind k (stdMapInsert k' v m) = stdMapFind k m := by
  induction m with
  | nil => simp [stdMapInsert, stdMapFind, hne]
  | cons hd tl ih =>
    obtain ⟨a, b⟩ := hd
    by_cases h : a = k'
    · subst h
      simp [stdMapInsert, stdMapFind, hne]
    · by_cases h2 : a = k
      · simp [stdMapInsert, stdMapFind, h, h2, Ne.symm hne]
      · simp [stdMapInsert, stdMapFind, h, h2, ih]

theorem stdMapFind_eq_none_of_not_mem {α β : Type} [DecidableEq α] (k : α)
    (m : List (α × β)) (h : k ∉ m.map Prod.fst) : stdMapFind k m = none := by
  induction m with
  | nil => rfl
  | cons hd tl ih =>
    obtain ⟨a, b⟩ := hd
    simp only [List.map_cons, List.mem_cons] at h
    push_neg at h
    simp [stdMapFind, Ne.symm h.1, ih h.2]

/-! ## The cache entry (`namespace_cache_entry_t`)

`cond_t` is a one-shot condition: `pulse_if_not_already_pulsed` sets
`pulsed`.  The entry's two notifier fields are `cond_t *` in the source
(NULL when no task is waiting); they are `Option cond_t` here, with
pulsing modelled as updating the stored condition in place.
`namespace_interface` is a `promise_t`; for reference-count reasoning
only its readiness is relevant. -/

structure cond_t where
  pulsed : Bool
deriving DecidableEq, Repr

structure namespace_cache_entry_t where
  namespace_interface_pulsed : Bool
  ref_count : Int
  pulse_when_ref_count_becomes_zero : Option cond_t
  pulse_when_ref_count_becomes_nonzero : Option cond_t
deriving DecidableEq, Repr

namespace namespace_cache_entry_t

/-- `add_ref`: `ref_count++; if (ref_count == 1) { if (ptr) ptr->pulse_if_not_already_pulsed(); }` -/
def add_ref (e : namespace_cache_entry_t) : namespace_cache_entry_t :=
  let e := { e with ref_count := e.ref_count + 1 }
  if e.ref_count = 1 then
    match e.pulse_when_ref_count_becomes_nonzero with
    | some _ => { e with pulse_when_ref_count_becomes_nonzero := some ⟨true⟩ }
    | none => e
  else
    e

/-- `release`: `ref_count--; if (ref_count == 0) { if (ptr) ptr->pulse_if_not_already_pulsed(); }` -/
def release (e : namespace_cache_entry_t) : namespace_cache_entry_t :=
  let e := { e with ref_count := e.ref_count - 1 }
  if e.ref_count = 0 then
    match e.pulse_when_ref_count_becomes_zero with
    | some _ => { e with pulse_when_ref_count_becomes_zero := some ⟨true⟩ }
    | none => e
  else
    e

end namespace_cache_entry_t

/-- Whether an optional `cond_t` pointer refers to a pulsed condition
(false when no condition is installed). -/
def condPulsed : Option cond_t → Bool
  | some c => c.pulsed
  | none => false

open namespace_cache_entry_t

/-- C6 — `add_ref` increments `ref_count` by exactly one and pulses the
installed notify-nonzero trigger iff the new count is 1 and a trigger is
installed; `release` decrements `ref_count` by exactly one and pulses the
installed notify-zero trigger iff the new count is 0 and a trigger is
installed; neither operation touches any other state (the interface slot,
the opposite trigger, or — away from the crossing — the same trigger). -/
theorem C6_add_ref_release_effect (e : namespace_cache_entry_t) :
    ((add_ref e).ref_count = e.ref_count + 1
      ∧ (add_ref e).namespace_interface_pulsed = e.namespace_interface_pulsed
      ∧ (add_ref e).pulse_when_ref_count_becomes_zero = e.pulse_when_ref_count_becomes_zero
      ∧ ((add_ref e).pulse_when_ref_count_becomes_nonzero).isSome
          = (e.pulse_when_ref_count_becomes_nonzero).isSome
      ∧ (condPulsed (add_ref e).pulse_when_ref_count_becomes_nonzero = true ↔
          (condPulsed e.pulse_when_ref_count_becomes_nonzero = true
            ∨ (e.ref_count + 1 = 1
                ∧ e.pulse_when_ref_count_becomes_nonzero ≠ none)))
      ∧ (e.ref_count + 1 ≠ 1 →
          (add_ref e).pulse_when_ref_count_becomes_nonzero
            = e.pulse_when_ref_count_becomes_nonzero))
    ∧ ((release e).ref_count = e.ref_count - 1
      ∧ (release e).namespace_interface_pulsed = e.namespace_interface_pulsed
      ∧ (release e).pulse_when_ref_count_becomes_nonzero
          = e.pulse_when_ref_count_becomes_nonzero
      ∧ ((release e).pulse_when_ref_count_becomes_zero).isSome
          = (e.pulse_when_ref_count_becomes_zero).isSome
      ∧ (condPulsed (release e).pulse_when_ref_count_becomes_zero = true ↔
          (condPulsed e.pulse_when_ref_count_becomes_zero = true
            ∨ (e.ref_count - 1 = 0
                ∧ e.pulse_when_ref_count_becomes_zero ≠ none)))
      ∧ (e.ref_count - 1 ≠ 0 →
          (release e).pulse_when_ref_count_becomes_zero
            = e.pulse_when_ref_count_becomes_zero)) := by
  constructor
  · unfold add_ref
    by_cases h1 : e.ref_count + 1 = 1
    · cases hnz : e.pulse_when_ref_count_becomes_nonzero with
      | none => simp [h1, hnz, condPulsed]
      | some c => simp [h1, hnz, condPulsed]
    · cases hnz : e.pulse_when_ref_count_becomes_nonzero with
      | none => simp [h1, hnz, condPulsed]
      | some c => simp [h1, hnz, condPulsed]
  · unfold release
    by_cases h1 : e.ref_count - 1 = 0
    · cases hz : e.pulse_when_ref_count_becomes_zero with
      | none => simp [h1, hz, condPulsed]
      | some c => simp [h1, hz, condPulsed]
    · cases hz : e.pulse_when_ref_count_becomes_zero with
      | none => simp [h1, hz, condPulsed]
      | some c => simp [h1, hz, condPulsed]

/-- Witness for C6 at a concrete entry (ref_count 0, both triggers installed
and unpulsed): discharges the conditional conjuncts concretely. -/
theorem C6_add_ref_release_effect_witness :
    (add_ref ⟨false, 0, some ⟨false⟩, some ⟨false⟩⟩).ref_count = 0 + 1
      ∧ condPulsed (add_ref ⟨false, 0, some ⟨false⟩,
          some ⟨false⟩⟩).pulse_when_ref_count_becomes_nonzero = true :=
  ⟨(C6_add_ref_release_effect ⟨false, 0, some ⟨false⟩, some ⟨false⟩⟩).1.1,
   ((C6_add_ref_release_effect ⟨false, 0, some ⟨false⟩, some ⟨false⟩⟩).1.2.2.2.2.1).mpr
     (Or.inr ⟨by decide, by decide⟩)⟩

/-- C10 — `release` performs no positivity check: on an entry with
`ref_count = 0` it yields `ref_count = -1` and pulses nothing (both
triggers, and the interface slot, are exactly as before); in general it
decrements unconditionally, so `ref_count ≥ 1` is an unchecked
precondition and non-negativity is not enforced. -/
theorem C10_release_at_zero (e : namespace_cache_entry_t) (h : e.ref_count = 0) :
    (release e).ref_count = -1
    ∧ (release e).pulse_when_ref_count_becomes_zero
        = e.pulse_when_ref_count_becomes_zero
    ∧ (release e).pulse_when_ref_count_becomes_nonzero
        = e.pulse_when_ref_count_becomes_nonzero
    ∧ (release e).namespace_interface_pulsed = e.namespace_interface_pulsed
    ∧ (∀ e' : namespace_cache_entry_t, (release e').ref_count = e'.ref_count - 1) := by
  have hne : e.ref_count - 1 ≠ 0 := by omega
  refine ⟨?_, ?_, ?_, ?_, ?_⟩
  · unfold release; simp [hne, h]
  · unfold release; simp [hne]
  · unfold release
    by_cases h1 : e.ref_count - 1 = 0
    · exact absurd h1 hne
    · cases hz : e.pulse_when_ref_count_becomes_zero <;> simp [h1, hz]
  · unfold release
    by_cases h1 : e.ref_count - 1 = 0
    · exact absurd h1 hne
    · cases hz : e.pulse_when_ref_count_becomes_zero <;> simp [h1, hz]
  · intro e'
    unfold release
    by_cases h1 : e'.ref_count - 1 = 0
    · cases hz : e'.pulse_when_ref_count_becomes_zero <;> simp [h1, hz]
    · cases hz : e'.pulse_when_ref_count_becomes_zero <;> simp [h1, hz]

/-- Witness for C10: a concrete zero-count entry with an installed,
unpulsed notify-zero trigger; releasing yields count -1 and the trigger
stays unpulsed. -/
theorem C10_release_at_zero_witness :
    (release ⟨true, 0, some ⟨false⟩, none⟩).ref_count = -1
    ∧ (release ⟨true, 0, some ⟨false⟩, none⟩).pulse_when_ref_count_becomes_zero
        = some ⟨false⟩ :=
  ⟨(C10_release_at_zero ⟨true, 0, some ⟨false⟩, none⟩ rfl).1,
   (C10_release_at_zero ⟨true, 0, some ⟨false⟩, none⟩ rfl).2.1⟩

/-! ## The directory projector (`on_namespaces_change`)

`on_namespaces_change` rebuilds the `TableId -> (KeyRange -> MachineId)`
projection from the semilattice snapshot.  The snapshot entry for one
table is a `deletable_t` around the table metadata; the blueprint is
wrapped in a conflict-tracking vclock, modelled by the
`blueprint_in_conflict` flag next to the blueprint value. -/

structure persistable_blueprint_t where
  machines_roles : List (machine_id_t × List (region_t × blueprint_role_t))
deriving DecidableEq, Repr

structure namespace_semilattice_metadata_t where
  blueprint_in_conflict : Bool
  blueprint : persistable_blueprint_t
deriving DecidableEq, Repr

structure deletable_t (α : Type) where
  is_deleted : Bool
  get_ref : α
deriving DecidableEq, Repr

abbrev region_to_primary_map_t := List (key_range_t × machine_id_t)
abbrev region_to_primary_maps_t := List (namespace_id_t × region_to_primary_map_t)
abbrev namespace_map_t :=
  List (namespace_id_t × deletable_t namespace_semilattice_metadata_t)

/-- `new_reg_to_pri_maps[tid][range] = machine`: outer `operator[]`
default-constructs the inner map when absent, then the inner assignment
overwrites. -/
def insertPrimary (tid : namespace_id_t) (range : key_range_t)
    (machine : machine_id_t) (proj : region_to_primary_maps_t) :
    region_to_primary_maps_t :=
  stdMapInsert tid
    (stdMapInsert range machine ((stdMapFind tid proj).getD [])) proj

/-- The inner loop over one machine's `region -> role` map. -/
def applyRoles (tid : namespace_id_t) (machine : machine_id_t)
    (acc : region_to_primary_maps_t)
    (roles : List (region_t × blueprint_role_t)) : region_to_primary_maps_t :=
  roles.foldl
    (fun acc2 rr =>
      if rr.2 = blueprint_role_t.blueprint_role_primary then
        insertPrimary tid rr.1.inner machine acc2
      else acc2)
    acc

/-- The loop over `bp.machines_roles`. -/
def applyBlueprint (tid : namespace_id_t) (bp : persistable_blueprint_t)
    (acc : region_to_primary_maps_t) : region_to_primary_maps_t :=
  bp.machines_roles.foldl (fun acc2 mr => applyRoles tid mr.1 acc2 mr.2) acc

/-- Body of the loop over the namespace map: skip deleted tables; for an
in-conflict table copy the current thread's existing mapping (if any);
otherwise collect the blueprint's primary assignments. -/
def processNamespace (old : region_to_primary_maps_t)
    (acc : region_to_primary_maps_t)
    (ent : namespace_id_t × deletable_t namespace_semilattice_metadata_t) :
    region_to_primary_maps_t :=
  if ent.2.is_deleted then acc
  else if ent.2.get_ref.blueprint_in_conflict then
    match stdMapFind ent.1 old with
    | some m => stdMapInsert ent.1 m acc
    | none => acc
  else applyBlueprint ent.1 ent.2.get_ref.blueprint acc

/-- `namespace_repo_t::on_namespaces_change`, restricted to the
computation of `new_reg_to_pri_maps` (`old` is the home thread's current
`region_to_primary_maps` contents). -/
def on_namespaces_change (ns : namespace_map_t)
    (old : region_to_primary_maps_t) : region_to_primary_maps_t :=
  ns.foldl (processNamespace old) []

/-- Lookup of one table's mapping for one range in a projection. -/
def projFindRange (tid : namespace_id_t) (range : key_range_t)
    (proj : region_to_primary_maps_t) : Option machine_id_t :=
  match stdMapFind tid proj with
  | some inner => stdMapFind range inner
  | none => none

/-- Some entry of this `region -> role` map is a primary role over a
region whose inner key range is `range`. -/
def rolesHavePrimaryAt (roles : List (region_t × blueprint_role_t))
    (range : key_range_t) : Prop :=
  ∃ rr ∈ roles, rr.2 = blueprint_role_t.blueprint_role_primary
    ∧ rr.1.inner = range

instance (roles : List (region_t × blueprint_role_t)) (range : key_range_t) :
    Decidable (rolesHavePrimaryAt roles range) := by
  unfold rolesHavePrimaryAt; infer_instance

/-- The blueprint contains a `(machine, region, role)` entry for this
machine whose region's inner key range is `range` and whose role is
primary. -/
def bpHasPrimary (bp : persistable_blueprint_t) (machine : machine_id_t)
    (range : key_range_t) : Prop :=
  ∃ mr ∈ bp.machines_roles, mr.1 = machine ∧ rolesHavePrimaryAt mr.2 range

instance (bp : persistable_blueprint_t) (machine : machine_id_t)
    (range : key_range_t) : Decidable (bpHasPrimary bp machine range) := by
  unfold bpHasPrimary; infer_instance

/-- No two distinct machines hold a primary role over regions with the
same inner key range: any two primary entries at the same inner range
belong to the same machine. -/
def bpUniquePrimary (bp : persistable_blueprint_t) : Prop :=
  ∀ mr ∈ bp.machines_roles, ∀ mr2 ∈ bp.machines_roles,
    ∀ rr ∈ mr.2, ∀ rr2 ∈ mr2.2,
      rr.2 = blueprint_role_t.blueprint_role_primary →
      rr2.2 = blueprint_role_t.blueprint_role_primary →
      rr.1.inner = rr2.1.inner → mr.1 = mr2.1

instance (bp : persistable_blueprint_t) : Decidable (bpUniquePrimary bp) := by
  unfold bpUniquePrimary; infer_instance

theorem bpUniquePrimary_apply (bp : persistable_blueprint_t)
    (huniq : bpUniquePrimary bp) (m m2 : machine_id_t) (range : key_range_t)
    (h1 : bpHasPrimary bp m range) (h2 : bpHasPrimary bp m2 range) : m = m2 := by
  obtain ⟨mr, hmr, hm1, rr, hrr, hp, hi⟩ := h1
  obtain ⟨mr2, hmr2, hm21, rr2, hrr2, hp2, hi2⟩ := h2
  rw [← hm1, ← hm21]
  exact huniq mr hmr mr2 hmr2 rr hrr rr2 hrr2 hp hp2 (hi.trans hi2.symm)

/-- The machine written last (in iteration order) at `range` by the
blueprint loops, starting from `cur`. -/
def lastPrimaryMachine (range : key_range_t)
    (mrs : List (machine_id_t × List (region_t × blueprint_role_t)))
    (cur : Option machine_id_t) : Option machine_id_t :=
  mrs.foldl
    (fun c mr => if rolesHavePrimaryAt mr.2 range then some mr.1 else c) cur

theorem stdMapFind_insertPrimary_ne (tid tid2 : namespace_id_t)
    (rg : key_range_t) (m : machine_id_t) (acc : region_to_primary_maps_t)
    (h : tid ≠ tid2) :
    stdMapFind tid (insertPrimary tid2 rg m acc) = stdMapFind tid acc := by
  unfold insertPrimary
  exact stdMapFind_insert_ne tid tid2 _ acc (Ne.symm h)

theorem stdMapFind_applyRoles_ne (tid tid2 : namespace_id_t)
    (m : machine_id_t) (roles : List (region_t × blueprint_role_t))
    (acc : region_to_primary_maps_t) (h : tid ≠ tid2) :
    stdMapFind tid (applyRoles tid2 m acc roles) = stdMapFind tid acc := by
  induction roles generalizing acc with
  | nil => rfl
  | cons rr rest ih =>
    unfold applyRoles
    rw [List.foldl_cons]
    by_cases hp : rr.2 = blueprint_role_t.blueprint_role_primary
    · simp only [hp, if_pos]
      rw [show (rest.foldl _ _ = applyRoles tid2 m (insertPrimary tid2 rr.1.inner m acc) rest) from rfl]
      rw [ih _, stdMapFind_insertPrimary_ne tid tid2 _ _ _ h]
    · simp only [hp, if_neg, ite_false]
      exact ih acc

theorem stdMapFind_applyBlueprint_ne (tid tid2 : namespace_id_t)
    (bp : persistable_blueprint_t) (acc : region_to_primary_maps_t)
    (h : tid ≠ tid2) :
    stdMapFind tid (applyBlueprint tid2 bp acc) = stdMapFind tid acc := by
  obtain ⟨mrs⟩ := bp
  unfold applyBlueprint
  simp only
  induction mrs generalizing acc with
  | nil => rfl
  | cons mr rest ih =>
    rw [List.foldl_cons, ih]
    exact stdMapFind_applyRoles_ne tid tid2 mr.1 mr.2 acc h

theorem stdMapFind_processNamespace_ne (tid : namespace_id_t)
    (old acc : region_to_primary_maps_t)
    (ent : namespace_id_t × deletable_t namespace_semilattice_metadata_t)
    (h : tid ≠ ent.1) :
    stdMapFind tid (processNamespace old acc ent) = stdMapFind tid acc := by
  unfold processNamespace
  by_cases hdel : ent.2.is_deleted
  · simp [hdel]
  · by_cases hc : ent.2.get_ref.blueprint_in_conflict
    · simp only [hdel, ite_false, hc, ite_true]
      cases hf : stdMapFind ent.1 old with
      | none => rfl
      | some m => exact stdMapFind_insert_ne tid ent.1 m acc (Ne.symm h)
    · simp only [hdel, ite_false, hc]
      exact stdMapFind_applyBlueprint_ne tid ent.1 _ acc h

theorem stdMapFind_foldl_processNamespace (tid : namespace_id_t)
    (old acc : region_to_primary_maps_t) (l : namespace_map_t)
    (h : tid ∉ l.map Prod.fst) :
    stdMapFind tid (l.foldl (processNamespace old) acc) = stdMapFind tid acc := by
  induction l generalizing acc with
  | nil => rfl
  | cons ent rest ih =>
    simp only [List.map_cons, List.mem_cons] at h
    push_neg at h
    rw [List.foldl_cons, ih _ h.2]
    exact stdMapFind_processNamespace_ne tid old acc ent h.1

/-- Decomposition of the rebuild at one table: with unique keys, the
final lookup for `tid` is the lookup after processing `tid`'s own entry
from an accumulator containing no binding for `tid`. -/
theorem find_on_namespaces_change_of_mem (ns : namespace_map_t)
    (old : region_to_primary_maps_t) (tid : namespace_id_t)
    (e : deletable_t namespace_semilattice_metadata_t)
    (hnd : (ns.map Prod.fst).Nodup) (hmem : (tid, e) ∈ ns) :
    ∃ acc1 : region_to_primary_maps_t,
      stdMapFind tid acc1 = none
      ∧ stdMapFind tid (on_namespaces_change ns old)
          = stdMapFind tid (processNamespace old acc1 (tid, e)) := by
  obtain ⟨l1, l2, hsplit⟩ := List.append_of_mem hmem
  subst hsplit
  rw [List.map_append, List.map_cons] at hnd
  have hd := List.nodup_append.mp hnd
  have htid1 : tid ∉ l1.map Prod.fst := by
    intro hmem1
    exact hd.2.2 hmem1 (List.mem_cons_self tid _)
  have htid2 : tid ∉ l2.map Prod.fst := (List.nodup_cons.mp hd.2.1).1
  refine ⟨l1.foldl (processNamespace old) [], ?_, ?_⟩
  · rw [stdMapFind_foldl_processNamespace tid old [] l1 htid1]
    rfl
  · unfold on_namespaces_change
    rw [List.foldl_append, List.foldl_cons]
    exact stdMapFind_foldl_processNamespace tid old _ l2 htid2

theorem projFindRange_congr (tid : namespace_id_t) (range : key_range_t)
    (p q : region_to_primary_maps_t)
    (h : stdMapFind tid p = stdMapFind tid q) :
    projFindRange tid range p = projFindRange tid range q := by
  unfold projFindRange
  rw [h]

theorem projFindRange_insertPrimary (tid : namespace_id_t)
    (rg range : key_range_t) (m : machine_id_t)
    (acc : region_to_primary_maps_t) :
    projFindRange tid range (insertPrimary tid rg m acc)
      = if rg = range then some m else projFindRange tid range acc := by
  unfold insertPrimary projFindRange
  rw [stdMapFind_insert_self]
  show stdMapFind range (stdMapInsert rg m ((stdMapFind tid acc).getD [])) = _
  by_cases h : rg = range
  · simp [h, stdMapFind_insert_self]
  · rw [stdMapFind_insert_ne range rg m _ h]
    cases hf : stdMapFind tid acc with
    | none => simp [h, stdMapFind]
    | some inner => simp [h]

theorem projFindRange_applyRoles (tid : namespace_id_t) (range : key_range_t)
    (m : machine_id_t) (roles : List (region_t × blueprint_role_t))
    (acc : region_to_primary_maps_t) :
    projFindRange tid range (applyRoles tid m acc roles)
      = if rolesHavePrimaryAt roles range then some m
        else projFindRange tid range acc := by
  induction roles generalizing acc with
  | nil =>
    simp [applyRoles, rolesHavePrimaryAt]
  | cons rr rest ih =>
    unfold applyRoles
    rw [List.foldl_cons]
    have hrw : (rest.foldl
        (fun acc2 rr2 =>
          if rr2.2 = blueprint_role_t.blueprint_role_primary then
            insertPrimary tid rr2.1.inner m acc2
          else acc2)
        (if rr.2 = blueprint_role_t.blueprint_role_primary then
            insertPrimary tid rr.1.inner m acc
          else acc))
        = applyRoles tid m
            (if rr.2 = blueprint_role_t.blueprint_role_primary then
              insertPrimary tid rr.1.inner m acc
            else acc) rest := rfl
    rw [hrw, ih]
    by_cases hrest : rolesHavePrimaryAt rest range
    · have hcons : rolesHavePrimaryAt (rr :: rest) range := by
        obtain ⟨x, hx, hp⟩ := hrest
        exact ⟨x, List.mem_cons_of_mem rr hx, hp⟩
      simp [hrest, hcons]
    · by_cases hp : rr.2 = blueprint_role_t.blueprint_role_primary
      · by_cases hr : rr.1.inner = range
        · have hcons : rolesHavePrimaryAt (rr :: rest) range :=
            ⟨rr, List.mem_cons_self rr rest, hp, hr⟩
          simp [hrest, hcons, hp, projFindRange_insertPrimary, hr]
        · have hcons : ¬ rolesHavePrimaryAt (rr :: rest) range := by
            intro ⟨x, hx, hxp, hxr⟩
            rcases List.mem_cons.mp hx with heq | hmem
            · exact hr (heq ▸ hxr)
            · exact hrest ⟨x, hmem, hxp, hxr⟩
          simp [hrest, hcons, hp, projFindRange_insertPrimary, hr]
      · have hcons : ¬ rolesHavePrimaryAt (rr :: rest) range := by
          intro ⟨x, hx, hxp, hxr⟩
          rcases List.mem_cons.mp hx with heq | hmem
          · exact hp (heq ▸ hxp)
          · exact hrest ⟨x, hmem, hxp, hxr⟩
        simp [hrest, hcons, hp]

theorem projFindRange_applyBlueprint (tid : namespace_id_t)
    (range : key_range_t) (bp : persistable_blueprint_t)
    (acc : region_to_primary_maps_t) :
    projFindRange tid range (applyBlueprint tid bp acc)
      = lastPrimaryMachine range bp.machines_roles
          (projFindRange tid range acc) := by
  obtain ⟨mrs⟩ := bp
  unfold applyBlueprint lastPrimaryMachine
  simp only
  induction mrs generalizing acc with
  | nil => rfl
  | cons mr rest ih =>
    rw [List.foldl_cons, List.foldl_cons, ih, projFindRange_applyRoles]

theorem lastPrimaryMachine_of_some (range : key_range_t)
    (mrs : List (machine_id_t × List (region_t × blueprint_role_t)))
    (cur : Option machine_id_t) (m : machine_id_t)
    (h : lastPrimaryMachine range mrs cur = some m) :
    (∃ mr ∈ mrs, mr.1 = m ∧ rolesHavePrimaryAt mr.2 range) ∨ cur = some m := by
  induction mrs generalizing cur with
  | nil => exact Or.inr h
  | cons mr rest ih =>
    unfold lastPrimaryMachine at h
    rw [List.foldl_cons] at h
    rcases ih _ h with ⟨x, hx, hx1, hx2⟩ | hcur
    · exact Or.inl ⟨x, List.mem_cons_of_mem mr hx, hx1, hx2⟩
    · by_cases hp : rolesHavePrimaryAt mr.2 range
      · rw [if_pos hp] at hcur
        exact Or.inl ⟨mr, List.mem_cons_self mr rest,
          (Option.some.injEq _ _ ▸ hcur), hp⟩
      · rw [if_neg hp] at hcur
        exact Or.inr hcur

theorem lastPrimaryMachine_some_start (range : key_range_t)
    (ys : List (machine_id_t × List (region_t × blueprint_role_t)))
    (m0 : machine_id_t) :
    ∃ m, lastPrimaryMachine range ys (some m0) = some m := by
  induction ys generalizing m0 with
  | nil => exact ⟨m0, rfl⟩
  | cons y ys ih =>
    unfold lastPrimaryMachine
    rw [List.foldl_cons]
    by_cases hy : rolesHavePrimaryAt y.2 range
    · rw [if_pos hy]
      exact ih y.1
    · rw [if_neg hy]
      exact ih m0

theorem lastPrimaryMachine_isSome_of_match (range : key_range_t)
    (mrs : List (machine_id_t × List (region_t × blueprint_role_t)))
    (cur : Option machine_id_t)
    (h : ∃ mr ∈ mrs, rolesHavePrimaryAt mr.2 range) :
    ∃ m, lastPrimaryMachine range mrs cur = some m := by
  induction mrs generalizing cur with
  | nil => exact absurd h (by simp)
  | cons mr rest ih =>
    unfold lastPrimaryMachine
    rw [List.foldl_cons]
    by_cases hrest : ∃ x ∈ rest, rolesHavePrimaryAt x.2 range
    · exact ih _ hrest
    · obtain ⟨x, hx, hxp⟩ := h
      rcases List.mem_cons.mp hx with heq | hmem
      · subst heq
        rw [if_pos hxp]
        exact lastPrimaryMachine_some_start range rest x.1
      · exact absurd ⟨x, hmem, hxp⟩ hrest

/-- Two snapshot entries that agree on everything
`on_namespaces_change` inspects: the deletion flag, the conflict flag,
and — only when the table is live and not in conflict — the blueprint
value.  The blueprint of a deleted or in-conflict entry is unconstrained. -/
def observablyEqual (e e2 : deletable_t namespace_semilattice_metadata_t) : Prop :=
  e.is_deleted = e2.is_deleted
  ∧ e.get_ref.blueprint_in_conflict = e2.get_ref.blueprint_in_conflict
  ∧ (e.is_deleted = false → e.get_ref.blueprint_in_conflict = false →
      e.get_ref.blueprint = e2.get_ref.blueprint)

theorem processNamespace_congr (old acc : region_to_primary_maps_t)
    (p q : namespace_id_t × deletable_t namespace_semilattice_metadata_t)
    (hfst : p.1 = q.1) (hobs : observablyEqual p.2 q.2) :
    processNamespace old acc p = processNamespace old acc q := by
  obtain ⟨hobs1, hobs2, hobs3⟩ := hobs
  unfold processNamespace
  rw [← hfst, ← hobs1, ← hobs2]
  by_cases hdel : p.2.is_deleted
  · simp [hdel]
  · have hdelf : p.2.is_deleted = false := by
      simp at hdel
      exact hdel
    by_cases hconf : p.2.get_ref.blueprint_in_conflict
    · simp [hdelf, hconf]
    · have hconff : p.2.get_ref.blueprint_in_conflict = false := by
        simp at hconf
        exact hconf
      simp [hdelf, hconff, hobs3 hdelf hconff]

theorem on_namespaces_change_congr (ns ns2 : namespace_map_t)
    (old : region_to_primary_maps_t)
    (h : List.Forall₂ (fun a b => a.1 = b.1 ∧ observablyEqual a.2 b.2) ns ns2) :
    on_namespaces_change ns old = on_namespaces_change ns2 old := by
  unfold on_namespaces_change
  suffices H : ∀ acc, ns.foldl (processNamespace old) acc
      = ns2.foldl (processNamespace old) acc from H []
  induction h with
  | nil =>
    intro acc
    rfl
  | cons hab htl ih =>
    intro acc
    rw [List.foldl_cons, List.foldl_cons,
      processNamespace_congr old acc _ _ hab.1 hab.2]
    exact ih _

/-- C1 — for every non-deleted table whose blueprint is in conflict, the
rebuilt projection's binding for that table equals the current thread's
existing binding (present mapping copied verbatim, absent mapping stays
absent); and the rebuild reads nothing of an in-conflict (or deleted)
table beyond its flags — replacing such blueprints by arbitrary ones
leaves the rebuilt projection unchanged. -/
theorem C1_conflict_preserves_mapping (ns : namespace_map_t)
    (old : region_to_primary_maps_t) (tid : namespace_id_t)
    (e : deletable_t namespace_semilattice_metadata_t)
    (hnd : (ns.map Prod.fst).Nodup) (hmem : (tid, e) ∈ ns)
    (hdel : e.is_deleted = false)
    (hconf : e.get_ref.blueprint_in_conflict = true) :
    stdMapFind tid (on_namespaces_change ns old) = stdMapFind tid old
    ∧ ∀ ns2, List.Forall₂ (fun a b => a.1 = b.1 ∧ observablyEqual a.2 b.2) ns ns2 →
        on_namespaces_change ns old = on_namespaces_change ns2 old := by
  refine ⟨?_, fun ns2 h => on_namespaces_change_congr ns ns2 old h⟩
  obtain ⟨acc1, hacc1, heq⟩ := find_on_namespaces_change_of_mem ns old tid e hnd hmem
  rw [heq]
  unfold processNamespace
  simp only [hdel, hconf]
  cases hold : stdMapFind tid old with
  | some m => simp [hold, stdMapFind_insert_self]
  | none => simp [hold, hacc1]

def dC1 : deletable_t namespace_semilattice_metadata_t :=
  ⟨false, ⟨true, ⟨[(3, [(⟨0, 1, (9, 9)⟩, blueprint_role_t.blueprint_role_primary)])]⟩⟩⟩

def nsC1 : namespace_map_t := [(5, dC1)]

def oldC1 : region_to_primary_maps_t := [(5, [((0, 3), 7)])]

/-- Witness for C1: a concrete snapshot with one live in-conflict table
and a prior mapping; the rebuilt projection keeps the prior binding. -/
theorem C1_conflict_preserves_mapping_witness :
    (nsC1.map Prod.fst).Nodup
    ∧ (5, dC1) ∈ nsC1
    ∧ stdMapFind 5 (on_namespaces_change nsC1 oldC1) = stdMapFind 5 oldC1 :=
  ⟨by decide, by decide,
    (C1_conflict_preserves_mapping nsC1 oldC1 5 dC1 (by decide) (by decide)
      rfl rfl).1⟩

def regionX : region_t := ⟨0, 1, (0, 10)⟩

/-- A blueprint in which two distinct machines both hold a primary role
over regions with the same inner key range. -/
def bpX : persistable_blueprint_t :=
  ⟨[(1, [(regionX, blueprint_role_t.blueprint_role_primary)]),
    (2, [(regionX, blueprint_role_t.blueprint_role_primary)])]⟩

def nsX : namespace_map_t := [(1, ⟨false, ⟨false, bpX⟩⟩)]

/-- Counterexample to C2 as stated: in snapshot `nsX`, table 1 is live
and not in conflict, its blueprint holds a primary entry for machine 1
at inner range `(0, 10)`, yet the rebuilt projection maps that range to
machine 2 (the later `operator[]` assignment overwrote machine 1), so
"maps range to machine iff the blueprint has a primary entry for that
machine at that range" fails at machine 1. -/
theorem C2_counterexample :
    bpHasPrimary bpX 1 (0, 10)
    ∧ projFindRange 1 (0, 10) (on_namespaces_change nsX []) = some 2
    ∧ ¬ (projFindRange 1 (0, 10) (on_namespaces_change nsX []) = some 1
          ↔ bpHasPrimary bpX 1 (0, 10)) := by decide

/-- C2 (amended) — the rebuilt projection has no entry for a deleted
table; and for a non-deleted, non-conflicting table whose blueprint
gives no two distinct machines a primary role at the same inner range,
the projection maps a range to a machine iff the blueprint contains a
`(machine, region, primary)` entry with that inner range. -/
theorem C2_projection_fidelity (ns : namespace_map_t)
    (old : region_to_primary_maps_t) (tid : namespace_id_t)
    (e : deletable_t namespace_semilattice_metadata_t)
    (hnd : (ns.map Prod.fst).Nodup) (hmem : (tid, e) ∈ ns) :
    (e.is_deleted = true → stdMapFind tid (on_namespaces_change ns old) = none)
    ∧ (e.is_deleted = false → e.get_ref.blueprint_in_conflict = false →
        bpUniquePrimary e.get_ref.blueprint →
        ∀ range machine,
          projFindRange tid range (on_namespaces_change ns old) = some machine
            ↔ bpHasPrimary e.get_ref.blueprint machine range) := by
  obtain ⟨acc1, hacc1, heq⟩ := find_on_namespaces_change_of_mem ns old tid e hnd hmem
  constructor
  · intro hdel
    rw [heq]
    unfold processNamespace
    simp [hdel, hacc1]
  · intro hdel hconf huniq range machine
    have hfind : stdMapFind tid (on_namespaces_change ns old)
        = stdMapFind tid (applyBlueprint tid e.get_ref.blueprint acc1) := by
      rw [heq]
      unfold processNamespace
      simp [hdel, hconf]
    rw [projFindRange_congr tid range _ _ hfind, projFindRange_applyBlueprint]
    have hacc : projFindRange tid range acc1 = none := by
      unfold projFindRange
      rw [hacc1]
    rw [hacc]
    constructor
    · intro h
      rcases lastPrimaryMachine_of_some range _ none machine h with hx | hcur
      · exact hx
      · exact absurd hcur (by simp)
    · intro hbp
      obtain ⟨mr, hmr, hm1, hm2⟩ := hbp
      obtain ⟨m2, hm2eq⟩ :=
        lastPrimaryMachine_isSome_of_match range _ none ⟨mr, hmr, hm2⟩
      rw [hm2eq]
      rcases lastPrimaryMachine_of_some range _ none m2 hm2eq with hx | hc
      · rw [bpUniquePrimary_apply _ huniq m2 machine range hx ⟨mr, hmr, hm1, hm2⟩]
      · exact absurd hc (by simp)

def bpW : persistable_blueprint_t :=
  ⟨[(1, [(⟨0, 1, (0, 10)⟩, blueprint_role_t.blueprint_role_primary),
         (⟨0, 1, (10, 20)⟩, blueprint_role_t.blueprint_role_secondary)]),
    (2, [(⟨0, 1, (10, 20)⟩, blueprint_role_t.blueprint_role_primary)])]⟩

def nsW : namespace_map_t := [(4, ⟨true, ⟨false, bpX⟩⟩), (7, ⟨false, ⟨false, bpW⟩⟩)]

/-- Witness for the amended C2 at a concrete snapshot: table 4 is
deleted and absent from the rebuild; table 7's well-formed blueprint
projects range `(0, 10)` to machine 1. -/
theorem C2_projection_fidelity_witness :
    (nsW.map Prod.fst).Nodup
    ∧ stdMapFind 4 (on_namespaces_change nsW []) = none
    ∧ (projFindRange 7 (0, 10) (on_namespaces_change nsW []) = some 1
        ↔ bpHasPrimary bpW 1 (0, 10)) :=
  ⟨by decide,
   (C2_projection_fidelity nsW [] 4 ⟨true, ⟨false, bpX⟩⟩ (by decide)
      (by decide)).1 rfl,
   (C2_projection_fidelity nsW [] 7 ⟨false, ⟨false, bpW⟩⟩ (by decide)
      (by decide)).2 rfl rfl (by decide) (0, 10) 1⟩

/-! ## `get_reactor_business_cards`

The directory value per peer carries a `reactor_bcards` map from table
id to a `cow_ptr_t<reactor_business_card_t>`; the card itself is opaque
here, with `default_reactor_business_card` standing for the
default-constructed `cow_ptr_t<reactor_business_card_t>()`. -/

abbrev reactor_business_card_t := Nat

def default_reactor_business_card : reactor_business_card_t := 0

structure namespaces_directory_metadata_t where
  reactor_bcards : List (namespace_id_t × reactor_business_card_t)
deriving DecidableEq, Repr

/-- Body of the loop over the directory's peers: `res[peer]` is set to
the peer's card for `n_id` when one is advertised, and to a
default-constructed card otherwise. -/
def grbcStep (n_id : namespace_id_t)
    (res : List (peer_id_t × reactor_business_card_t))
    (pm : peer_id_t × namespaces_directory_metadata_t) :
    List (peer_id_t × reactor_business_card_t) :=
  match stdMapFind n_id pm.2.reactor_bcards with
  | some c => stdMapInsert pm.1 c res
  | none => stdMapInsert pm.1 default_reactor_business_card res

def get_reactor_business_cards
    (dir : List (peer_id_t × namespaces_directory_metadata_t))
    (n_id : namespace_id_t) : List (peer_id_t × reactor_business_card_t) :=
  dir.foldl (grbcStep n_id) []

theorem find_grbcStep_ne (n_id : namespace_id_t) (p : peer_id_t)
    (res : List (peer_id_t × reactor_business_card_t))
    (pm : peer_id_t × namespaces_directory_metadata_t) (h : p ≠ pm.1) :
    stdMapFind p (grbcStep n_id res pm) = stdMapFind p res := by
  unfold grbcStep
  cases hf : stdMapFind n_id pm.2.reactor_bcards with
  | some c => exact stdMapFind_insert_ne p pm.1 c res (Ne.symm h)
  | none => exact stdMapFind_insert_ne p pm.1 _ res (Ne.symm h)

theorem find_grbc_foldl_ne (n_id : namespace_id_t) (p : peer_id_t)
    (l : List (peer_id_t × namespaces_directory_metadata_t))
    (res : List (peer_id_t × reactor_business_card_t))
    (h : p ∉ l.map Prod.fst) :
    stdMapFind p (l.foldl (grbcStep n_id) res) = stdMapFind p res := by
  induction l generalizing res with
  | nil => rfl
  | cons pm rest ih =>
    simp only [List.map_cons, List.mem_cons] at h
    push_neg at h
    rw [List.foldl_cons, ih _ h.2, find_grbcStep_ne n_id p res pm h.1]

/-- C9 — for every directory snapshot (with its `std::map` key
uniqueness) and every table id, the result of
`get_reactor_business_cards` has exactly the snapshot's peers as keys; a
peer advertising a card for the table maps to that card and a peer
without one maps to a default-constructed card instead of being
omitted. -/
theorem C9_reactor_business_cards (dir : List (peer_id_t × namespaces_directory_metadata_t))
    (n_id : namespace_id_t) (hnd : (dir.map Prod.fst).Nodup) :
    (∀ p, (stdMapFind p (get_reactor_business_cards dir n_id)).isSome
        ↔ p ∈ dir.map Prod.fst)
    ∧ (∀ p md, (p, md) ∈ dir →
        stdMapFind p (get_reactor_business_cards dir n_id)
          = some ((stdMapFind n_id md.reactor_bcards).getD
              default_reactor_business_card)) := by
  have hval : ∀ p md, (p, md) ∈ dir →
      stdMapFind p (get_reactor_business_cards dir n_id)
        = some ((stdMapFind n_id md.reactor_bcards).getD
            default_reactor_business_card) := by
    intro p md hmem
    obtain ⟨l1, l2, hsplit⟩ := List.append_of_mem hmem
    subst hsplit
    rw [List.map_append, List.map_cons] at hnd
    have hd := List.nodup_append.mp hnd
    have hp2 : p ∉ l2.map Prod.fst := (List.nodup_cons.mp hd.2.1).1
    unfold get_reactor_business_cards
    rw [List.foldl_append, List.foldl_cons, find_grbc_foldl_ne n_id p l2 _ hp2]
    unfold grbcStep
    cases hf : stdMapFind n_id md.reactor_bcards with
    | some c => simp [stdMapFind_insert_self, hf]
    | none => simp [stdMapFind_insert_self, hf]
  refine ⟨fun p => ⟨?_, ?_⟩, hval⟩
  · intro hsome
    by_contra hmem
    rw [show (get_reactor_business_cards dir n_id
        = dir.foldl (grbcStep n_id) []) from rfl,
      find_grbc_foldl_ne n_id p dir [] hmem] at hsome
    simp [stdMapFind] at hsome
  · intro hmem
    obtain ⟨pm, hpm, hfst⟩ := List.mem_map.mp hmem
    obtain ⟨q, md⟩ := pm
    subst hfst
    rw [hval q md hpm]
    rfl

/-- Witness for C9: a two-peer directory where peer 3 advertises a card
for table 9 and peer 8 does not; both peers appear in the result, peer 8
with the default card. -/
theorem C9_reactor_business_cards_witness :
    stdMapFind 3 (get_reactor_business_cards
        [(3, ⟨[(9, 42)]⟩), (8, ⟨[(6, 5)]⟩)] 9) = some 42
    ∧ stdMapFind 8 (get_reactor_business_cards
        [(3, ⟨[(9, 42)]⟩), (8, ⟨[(6, 5)]⟩)] 9)
        = some default_reactor_business_card :=
  ⟨((C9_reactor_business_cards [(3, ⟨[(9, 42)]⟩), (8, ⟨[(6, 5)]⟩)] 9
      (by decide)).2 3 ⟨[(9, 42)]⟩ (by decide)).trans (by decide),
   ((C9_reactor_business_cards [(3, ⟨[(9, 42)]⟩), (8, ⟨[(6, 5)]⟩)] 9
      (by decide)).2 8 ⟨[(6, 5)]⟩ (by decide)).trans (by decide)⟩

/-! ## Reference-count histories

While the lifecycle task is suspended in a wait, the only mutations of
the entry are `add_ref`/`release` calls made by access handles on the
owning thread; a wait period is therefore a list of `entry_op`s applied
in order. -/

inductive entry_op where
  | op_add_ref
  | op_release
deriving DecidableEq, Repr

def apply_op (e : namespace_cache_entry_t) : entry_op → namespace_cache_entry_t
  | entry_op.op_add_ref => add_ref e
  | entry_op.op_release => release e

def apply_ops (e : namespace_cache_entry_t) (ops : List entry_op) :
    namespace_cache_entry_t :=
  ops.foldl apply_op e

/-- A history is valid when every `release` is made while the count is
positive (each handle's destructor pairs with its constructor). -/
def valid_ops (e : namespace_cache_entry_t) : List entry_op → Prop
  | [] => True
  | op :: rest =>
    (op = entry_op.op_release → 0 < e.ref_count) ∧ valid_ops (apply_op e op) rest

def valid_ops_dec (e : namespace_cache_entry_t) :
    (ops : List entry_op) → Decidable (valid_ops e ops)
  | [] => Decidable.isTrue trivial
  | op :: rest =>
    letI : Decidable (valid_ops (apply_op e op) rest) :=
      valid_ops_dec (apply_op e op) rest
    inferInstanceAs (Decidable (_ ∧ _))

instance (e : namespace_cache_entry_t) (ops : List entry_op) :
    Decidable (valid_ops e ops) := valid_ops_dec e ops

theorem rc_add_ref (e : namespace_cache_entry_t) :
    (add_ref e).ref_count = e.ref_count + 1 := by
  unfold add_ref
  by_cases h1 : e.ref_count + 1 = 1
  · cases hnz : e.pulse_when_ref_count_becomes_nonzero <;> simp [h1, hnz]
  · cases hnz : e.pulse_when_ref_count_becomes_nonzero <;> simp [h1, hnz]

theorem rc_release (e : namespace_cache_entry_t) :
    (release e).ref_count = e.ref_count - 1 := by
  unfold release
  by_cases h1 : e.ref_count - 1 = 0
  · cases hz : e.pulse_when_ref_count_becomes_zero <;> simp [h1, hz]
  · cases hz : e.pulse_when_ref_count_becomes_zero <;> simp [h1, hz]

theorem add_ref_pulses_at_zero (e : namespace_cache_entry_t)
    (h : e.ref_count = 0) (c : cond_t)
    (hc : e.pulse_when_ref_count_becomes_nonzero = some c) :
    (add_ref e).pulse_when_ref_count_becomes_nonzero = some ⟨true⟩ := by
  unfold add_ref
  simp [h, hc]

theorem add_ref_nonzero_unchanged (e : namespace_cache_entry_t)
    (h : e.ref_count ≠ 0) :
    (add_ref e).pulse_when_ref_count_becomes_nonzero
      = e.pulse_when_ref_count_becomes_nonzero := by
  unfold add_ref
  have h1 : ¬ (e.ref_count + 1 = 1) := by omega
  cases hnz : e.pulse_when_ref_count_becomes_nonzero <;> simp [h1, hnz]

theorem release_nonzero_unchanged (e : namespace_cache_entry_t) :
    (release e).pulse_when_ref_count_becomes_nonzero
      = e.pulse_when_ref_count_becomes_nonzero := by
  unfold release
  by_cases h1 : e.ref_count - 1 = 0
  · cases hz : e.pulse_when_ref_count_becomes_zero <;> simp [h1, hz]
  · cases hz : e.pulse_when_ref_count_becomes_zero <;> simp [h1, hz]

theorem apply_op_nonzero_mono (e : namespace_cache_entry_t) (op : entry_op)
    (h : condPulsed e.pulse_when_ref_count_becomes_nonzero = true) :
    condPulsed (apply_op e op).pulse_when_ref_count_becomes_nonzero = true := by
  cases op with
  | op_add_ref =>
    show condPulsed (add_ref e).pulse_when_ref_count_becomes_nonzero = true
    by_cases hz : e.ref_count = 0
    · cases hnz : e.pulse_when_ref_count_becomes_nonzero with
      | none => rw [hnz] at h; exact absurd h (by simp [condPulsed])
      | some c => rw [add_ref_pulses_at_zero e hz c hnz]; rfl
    · rw [add_ref_nonzero_unchanged e hz]; exact h
  | op_release =>
    show condPulsed (release e).pulse_when_ref_count_becomes_nonzero = true
    rw [release_nonzero_unchanged e]; exact h

theorem apply_ops_nonzero_mono (ops : List entry_op)
    (e : namespace_cache_entry_t)
    (h : condPulsed e.pulse_when_ref_count_becomes_nonzero = true) :
    condPulsed (apply_ops e ops).pulse_when_ref_count_becomes_nonzero = true := by
  induction ops generalizing e with
  | nil => exact h
  | cons op rest ih =>
    exact ih (apply_op e op) (apply_op_nonzero_mono e op h)

theorem apply_ops_ref_count (ops : List entry_op) (e : namespace_cache_entry_t) :
    (apply_ops e ops).ref_count
      = e.ref_count + ops.count entry_op.op_add_ref
          - ops.count entry_op.op_release := by
  induction ops generalizing e with
  | nil => simp [apply_ops]
  | cons op rest ih =>
    show (apply_ops (apply_op e op) rest).ref_count = _
    rw [ih]
    cases op with
    | op_add_ref =>
      show (add_ref e).ref_count + _ - _ = _
      rw [rc_add_ref]
      simp [List.count_cons]
      omega
    | op_release =>
      show (release e).ref_count + _ - _ = _
      rw [rc_release]
      simp [List.count_cons]
      omega

/-- C7 — the entry's `ref_count` is 0 whenever the lifecycle task
reaches the point of erasing the entry.  Expiry path: the wait began
with `ref_count == 0` and a fresh notify-nonzero condition installed by
the sentry; if that condition is still unpulsed when the wait returns,
no history of handle operations (each `release` paired with an earlier
`add_ref`, so the count never goes negative) can have moved the count
away from 0, and the `guarantee(cache_entry->ref_count == 0)` after the
expiration wait holds.  Drain path: the repository destructor implies
every access handle has been destroyed, i.e. the history balances
`add_ref` and `release`; starting from 0 the count is again 0, and the
`guarantee` in the catch handler holds. -/
theorem C7_erase_implies_ref_count_zero (ops : List entry_op)
    (e : namespace_cache_entry_t) :
    (e.ref_count = 0 →
      e.pulse_when_ref_count_becomes_nonzero = some ⟨false⟩ →
      valid_ops e ops →
      condPulsed (apply_ops e ops).pulse_when_ref_count_becomes_nonzero = false →
      (apply_ops e ops).ref_count = 0)
    ∧ (e.ref_count = 0 →
        ops.count entry_op.op_add_ref = ops.count entry_op.op_release →
        (apply_ops e ops).ref_count = 0) := by
  constructor
  · induction ops generalizing e with
    | nil =>
      intro h0 _ _ _
      exact h0
    | cons op rest ih =>
      intro h0 hinst hvalid hunpulsed
      obtain ⟨hv, hrest⟩ := hvalid
      cases op with
      | op_release => exact absurd (hv rfl) (by omega)
      | op_add_ref =>
        exfalso
        have hpulse : (add_ref e).pulse_when_ref_count_becomes_nonzero
            = some ⟨true⟩ := add_ref_pulses_at_zero e h0 ⟨false⟩ hinst
        have hmono : condPulsed
            (apply_ops (add_ref e) rest).pulse_when_ref_count_becomes_nonzero
              = true :=
          apply_ops_nonzero_mono rest (add_ref e) (by rw [hpulse]; rfl)
        rw [show apply_ops e (entry_op.op_add_ref :: rest)
            = apply_ops (add_ref e) rest from rfl] at hunpulsed
        rw [hmono] at hunpulsed
        exact absurd hunpulsed (by simp)
  · intro h0 hbal
    rw [apply_ops_ref_count ops e, h0, hbal]
    omega

/-- Witness for C7: the history add, release, add, release during the
expiration wait pulses the trigger, so its hypotheses force the trivial
history here; with the empty history both guarantees hold at the
freshly-zero entry. -/
theorem C7_erase_implies_ref_count_zero_witness :
    (apply_ops ⟨true, 0, none, some ⟨false⟩⟩ []).ref_count = 0
    ∧ (apply_ops ⟨true, 0, none, some ⟨false⟩⟩
        [entry_op.op_add_ref, entry_op.op_release]).ref_count = 0 :=
  ⟨(C7_erase_implies_ref_count_zero [] ⟨true, 0, none, some ⟨false⟩⟩).1
      rfl rfl trivial (by decide),
   (C7_erase_implies_ref_count_zero
      [entry_op.op_add_ref, entry_op.op_release]
      ⟨true, 0, none, some ⟨false⟩⟩).2 rfl (by decide)⟩

theorem exists_transition_cons (op : entry_op) (rest : List entry_op)
    (e : namespace_cache_entry_t)
    (hno : ¬(op = entry_op.op_add_ref ∧ e.ref_count = 0)) :
    (∃ pre suf, op :: rest = pre ++ entry_op.op_add_ref :: suf
        ∧ (apply_ops e pre).ref_count = 0)
    ↔ (∃ pre suf, rest = pre ++ entry_op.op_add_ref :: suf
        ∧ (apply_ops (apply_op e op) pre).ref_count = 0) := by
  constructor
  · rintro ⟨pre, suf, heq, hrc⟩
    cases pre with
    | nil =>
      simp only [List.nil_append, List.cons.injEq] at heq
      exact absurd ⟨heq.1, hrc⟩ hno
    | cons hd pre2 =>
      simp only [List.cons_append, List.cons.injEq] at heq
      refine ⟨pre2, suf, heq.2, ?_⟩
      have : apply_ops e (hd :: pre2) = apply_ops (apply_op e hd) pre2 := rfl
      rw [this, ← heq.1] at hrc
      exact hrc
  · rintro ⟨pre2, suf, heq, hrc⟩
    exact ⟨op :: pre2, suf, by rw [List.cons_append, heq], hrc⟩

/-- While the task waits with a fresh notify-nonzero condition
installed, the condition ends up pulsed iff some `add_ref` of the
history fired at count 0 (a 0-to-1 transition). -/
theorem nonzero_pulse_iff_zero_to_one (ops : List entry_op)
    (e : namespace_cache_entry_t)
    (hinst : e.pulse_when_ref_count_becomes_nonzero = some ⟨false⟩) :
    condPulsed (apply_ops e ops).pulse_when_ref_count_becomes_nonzero = true ↔
      ∃ pre suf, ops = pre ++ entry_op.op_add_ref :: suf
        ∧ (apply_ops e pre).ref_count = 0 := by
  induction ops generalizing e with
  | nil =>
    constructor
    · intro h
      rw [show apply_ops e [] = e from rfl, hinst] at h
      exact absurd h (by simp [condPulsed])
    · rintro ⟨pre, suf, heq, _⟩
      cases pre <;> simp at heq
  | cons op rest ih =>
    have hstep : apply_ops e (op :: rest) = apply_ops (apply_op e op) rest := rfl
    rw [hstep]
    cases op with
    | op_release =>
      simp only [apply_op]
      have hinst2 : (release e).pulse_when_ref_count_becomes_nonzero
          = some ⟨false⟩ := by rw [release_nonzero_unchanged e]; exact hinst
      rw [ih (release e) hinst2]
      exact (exists_transition_cons entry_op.op_release rest e (by simp)).symm
    | op_add_ref =>
      simp only [apply_op]
      by_cases hz : e.ref_count = 0
      · have hpulse : (add_ref e).pulse_when_ref_count_becomes_nonzero
            = some ⟨true⟩ := add_ref_pulses_at_zero e hz ⟨false⟩ hinst
        have hl : condPulsed
            (apply_ops (add_ref e) rest).pulse_when_ref_count_becomes_nonzero
              = true :=
          apply_ops_nonzero_mono rest (add_ref e) (by rw [hpulse]; rfl)
        rw [hl]
        simp only [true_iff]
        exact ⟨[], rest, rfl, hz⟩
      · have hinst2 : (add_ref e).pulse_when_ref_count_becomes_nonzero
            = some ⟨false⟩ := by rw [add_ref_nonzero_unchanged e hz]; exact hinst
        rw [ih (add_ref e) hinst2]
        exact (exists_transition_cons entry_op.op_add_ref rest e
          (fun hc => hz hc.2)).symm

/-- The entry state at the start of every expiration wait: the interface
slot has been pulsed, `ref_count` was just observed 0, no notify-zero
condition is installed (its sentry has gone out of scope), and the
sentry for this wait has installed a fresh unpulsed notify-nonzero
condition. -/
def expiration_wait_start_entry : namespace_cache_entry_t :=
  ⟨true, 0, none, some ⟨false⟩⟩

/-- Whether the notify-nonzero condition of one expiration wait is
pulsed when the wait returns, given the handle operations performed
during the wait. -/
def expirationWaitPulsesNonzero (ops : List entry_op) : Bool :=
  condPulsed
    (apply_ops expiration_wait_start_entry ops).pulse_when_ref_count_becomes_nonzero

def NAMESPACE_INTERFACE_EXPIRATION_MS : Nat := 60 * 1000

/-- The keep-alive loop of `create_and_destroy_namespace_interface`,
driven by the per-iteration handle histories.  Each iteration starts a
`signal_timer_t` with `NAMESPACE_INTERFACE_EXPIRATION_MS` and waits on
timer-or-trigger; if the trigger is unpulsed when the wait returns (the
timer fired), the loop breaks for teardown, otherwise it re-enters.
Result: the list of started timer durations and whether the loop exited
for teardown (`false` covers the drain/interruption case, where the
supply of uninterrupted waits ends). -/
def keepAliveRun : List (List entry_op) → List Nat × Bool
  | [] => ([], false)
  | ops :: rest =>
    if expirationWaitPulsesNonzero ops then
      (NAMESPACE_INTERFACE_EXPIRATION_MS :: (keepAliveRun rest).1,
        (keepAliveRun rest).2)
    else
      ([NAMESPACE_INTERFACE_EXPIRATION_MS], true)

/-- C3 — every observation of `ref_count == 0` starts a timer of exactly
60000 ms; the loop is left for teardown only when a wait ends with the
notify-nonzero trigger unpulsed; a pulsed trigger (equivalently, a
0-to-1 `ref_count` transition during that wait) re-enters the loop, with
a fresh 60000 ms timer started at the next `ref_count == 0`
observation. -/
theorem C3_expiration_window (iters : List (List entry_op))
    (ops : List entry_op) :
    NAMESPACE_INTERFACE_EXPIRATION_MS = 60000
    ∧ (∀ t ∈ (keepAliveRun iters).1, t = 60000)
    ∧ ((keepAliveRun iters).2 = true ↔
        ∃ i ∈ iters, expirationWaitPulsesNonzero i = false)
    ∧ (expirationWaitPulsesNonzero ops = true →
        keepAliveRun (ops :: iters)
          = (60000 :: (keepAliveRun iters).1, (keepAliveRun iters).2))
    ∧ (expirationWaitPulsesNonzero ops = true ↔
        ∃ pre suf, ops = pre ++ entry_op.op_add_ref :: suf
          ∧ (apply_ops expiration_wait_start_entry pre).ref_count = 0) := by
  refine ⟨rfl, ?_, ?_, ?_, ?_⟩
  · induction iters with
    | nil =>
      intro t ht
      exact absurd ht (by simp [keepAliveRun])
    | cons i rest ih =>
      intro t ht
      unfold keepAliveRun at ht
      by_cases hp : expirationWaitPulsesNonzero i
      · rw [if_pos hp] at ht
        rcases List.mem_cons.mp ht with h | h
        · rw [h]; rfl
        · exact ih t h
      · rw [if_neg hp] at ht
        rcases List.mem_cons.mp ht with h | h
        · rw [h]; rfl
        · exact absurd h (by simp)
  · induction iters with
    | nil => simp [keepAliveRun]
    | cons i rest ih =>
      unfold keepAliveRun
      by_cases hp : expirationWaitPulsesNonzero i
      · rw [if_pos hp]
        simp only [List.mem_cons]
        rw [ih]
        constructor
        · rintro ⟨j, hj, hjf⟩
          exact ⟨j, Or.inr hj, hjf⟩
        · rintro ⟨j, hj | hj, hjf⟩
          · rw [hj] at hjf
            rw [hp] at hjf
            exact absurd hjf (by simp)
          · exact ⟨j, hj, hjf⟩
      · rw [if_neg hp]
        simp only [true_iff]
        exact ⟨i, List.mem_cons_self i rest, by simpa using hp⟩
  · intro hp
    show (if expirationWaitPulsesNonzero ops then
        (NAMESPACE_INTERFACE_EXPIRATION_MS :: (keepAliveRun iters).1,
          (keepAliveRun iters).2)
      else ([NAMESPACE_INTERFACE_EXPIRATION_MS], true))
      = (60000 :: (keepAliveRun iters).1, (keepAliveRun iters).2)
    rw [if_pos hp]
    rfl
  · exact nonzero_pulse_iff_zero_to_one ops expiration_wait_start_entry rfl

/-- Witness for C3: one `add_ref` during the first wait pulses the
trigger, so the loop re-enters with a fresh 60000 ms timer; the second
wait sees no operation and the loop exits. -/
theorem C3_expiration_window_witness :
    expirationWaitPulsesNonzero [entry_op.op_add_ref] = true
    ∧ keepAliveRun [[entry_op.op_add_ref], []]
        = (60000 :: (keepAliveRun [[]]).1, (keepAliveRun [[]]).2) :=
  ⟨by decide,
   (C3_expiration_window [[]] [entry_op.op_add_ref]).2.2.2.1 (by decide)⟩

theorem stdMapErase_sublist {α β : Type} [DecidableEq α] (k : α)
    (m : List (α × β)) : List.Sublist (stdMapErase k m) m := by
  induction m with
  | nil => exact List.Sublist.refl []
  | cons hd tl ih =>
    obtain ⟨a, b⟩ := hd
    by_cases h : a = k
    · simp only [stdMapErase, h, if_pos]
      exact List.sublist_cons_self (k, b) tl
    · simp only [stdMapErase, h, if_neg, ite_false]
      exact List.Sublist.cons₂ (a, b) ih

theorem mem_keys_stdMapInsert {α β : Type} [DecidableEq α] (x k : α) (v : β)
    (m : List (α × β)) :
    x ∈ (stdMapInsert k v m).map Prod.fst ↔ x = k ∨ x ∈ m.map Prod.fst := by
  induction m with
  | nil => simp [stdMapInsert]
  | cons hd tl ih =>
    obtain ⟨a, b⟩ := hd
    by_cases h : a = k
    · subst h
      simp [stdMapInsert]
    · simp [stdMapInsert, h, ih]
      tauto

theorem nodup_keys_stdMapInsert {α β : Type} [DecidableEq α] (k : α) (v : β)
    (m : List (α × β)) (hnd : (m.map Prod.fst).Nodup) :
    ((stdMapInsert k v m).map Prod.fst).Nodup := by
  induction m with
  | nil => simp [stdMapInsert]
  | cons hd tl ih =>
    obtain ⟨a, b⟩ := hd
    simp only [List.map_cons, List.nodup_cons] at hnd
    by_cases h : a = k
    · subst h
      simp only [stdMapInsert, if_pos]
      simp only [List.map_cons, List.nodup_cons]
      exact hnd
    · simp only [stdMapInsert, h, ite_false]
      simp only [List.map_cons, List.nodup_cons]
      refine ⟨?_, ih hnd.2⟩
      rw [mem_keys_stdMapInsert]
      push_neg
      exact ⟨h, hnd.1⟩

theorem stdMapFind_erase_self {α β : Type} [DecidableEq α] (k : α)
    (m : List (α × β)) (hnd : (m.map Prod.fst).Nodup) :
    stdMapFind k (stdMapErase k m) = none := by
  induction m with
  | nil => rfl
  | cons hd tl ih =>
    obtain ⟨a, b⟩ := hd
    simp only [List.map_cons, List.nodup_cons] at hnd
    by_cases h : a = k
    · simp only [stdMapErase, h, if_pos]
      subst h
      exact stdMapFind_eq_none_of_not_mem a tl hnd.1
    · simp only [stdMapErase, h, ite_false]
      simp [stdMapFind, h, ih hnd.2]

theorem stdMapFind_erase_ne {α β : Type} [DecidableEq α] (k k2 : α)
    (m : List (α × β)) (h : k2 ≠ k) :
    stdMapFind k2 (stdMapErase k m) = stdMapFind k2 m := by
  induction m with
  | nil => rfl
  | cons hd tl ih =>
    obtain ⟨a, b⟩ := hd
    by_cases ha : a = k
    · subst ha
      simp only [stdMapErase, if_pos]
      simp [stdMapFind, Ne.symm h]
    · simp only [stdMapErase, ha, ite_false]
      by_cases ha2 : a = k2
      · simp [stdMapFind, ha2]
      · simp [stdMapFind, ha2, ih]

/-! ## `get_namespace_interface`

The find-or-create part runs in an `ASSERT_FINITE_CORO_WAITING` region:
a missing entry is allocated with `ref_count = 0`, both notifier
pointers NULL and an unpulsed promise, inserted into the thread's map,
and the lifecycle task is spawned (`spawned`).  The caller then does
`wait_interruptible` on the promise's ready signal: if the interruptor
fires the `interrupted_exc_t` propagates out of the call with no further
effect on the entry (`threw_interrupted_exc`); otherwise the returned
`namespace_interface_access_t` constructor calls `add_ref` on the
entry. -/

def fresh_cache_entry : namespace_cache_entry_t := ⟨false, 0, none, none⟩

structure get_outcome where
  cache : List (namespace_id_t × namespace_cache_entry_t)
  spawned : Bool
  threw_interrupted_exc : Bool
deriving DecidableEq, Repr

def get_namespace_interface
    (cache : List (namespace_id_t × namespace_cache_entry_t))
    (ns_id : namespace_id_t) (interrupted : Bool) : get_outcome :=
  match stdMapFind ns_id cache with
  | none =>
    let cache1 := stdMapInsert ns_id fresh_cache_entry cache
    if interrupted then ⟨cache1, true, true⟩
    else ⟨stdMapInsert ns_id (add_ref fresh_cache_entry) cache1, true, false⟩
  | some e =>
    if interrupted then ⟨cache, false, true⟩
    else ⟨stdMapInsert ns_id (add_ref e) cache, false, false⟩

/-- C4 — a `get_namespace_interface` call whose interruptor fires during
the wait on the entry's ready signal raises the interruption, performs
no `add_ref` (the entry's `ref_count`, and indeed the whole entry, is
exactly what it was after find-or-create), and leaves the entry in the
thread's cache map. -/
theorem C4_interrupted_get
    (cache : List (namespace_id_t × namespace_cache_entry_t))
    (ns_id : namespace_id_t) :
    (get_namespace_interface cache ns_id true).threw_interrupted_exc = true
    ∧ (∀ e0, stdMapFind ns_id cache = some e0 →
        (get_namespace_interface cache ns_id true).cache = cache
        ∧ stdMapFind ns_id (get_namespace_interface cache ns_id true).cache
            = some e0)
    ∧ (stdMapFind ns_id cache = none →
        stdMapFind ns_id (get_namespace_interface cache ns_id true).cache
          = some fresh_cache_entry
        ∧ fresh_cache_entry.ref_count = 0) := by
  cases hf : stdMapFind ns_id cache with
  | none =>
    refine ⟨?_, ?_, ?_⟩
    · unfold get_namespace_interface
      rw [hf]
      rfl
    · intro e0 he0
      exact absurd he0 (by simp)
    · intro _
      unfold get_namespace_interface
      rw [hf]
      exact ⟨stdMapFind_insert_self ns_id fresh_cache_entry cache, rfl⟩
  | some e =>
    refine ⟨?_, ?_, ?_⟩
    · unfold get_namespace_interface
      rw [hf]
      rfl
    · intro e0 he0
      unfold get_namespace_interface
      rw [hf]
      refine ⟨rfl, ?_⟩
      show stdMapFind ns_id cache = some e0
      exact hf.trans he0
    · intro hnone
      exact absurd hnone (by simp)

/-- Witness for C4: interruption on a warm cache (entry with count 5)
leaves the cache untouched; interruption on a cold cache leaves the
fresh zero-count entry in the map. -/
theorem C4_interrupted_get_witness :
    (get_namespace_interface [(2, ⟨true, 5, none, none⟩)] 2 true).cache
        = [(2, ⟨true, 5, none, none⟩)]
    ∧ stdMapFind 7 (get_namespace_interface [] 7 true).cache
        = some fresh_cache_entry :=
  ⟨((C4_interrupted_get [(2, ⟨true, 5, none, none⟩)] 2).2.1
      ⟨true, 5, none, none⟩ rfl).1,
   ((C4_interrupted_get [] 7).2.2 rfl).1⟩

theorem get_spawned_iff (cache : List (namespace_id_t × namespace_cache_entry_t))
    (ns_id : namespace_id_t) (intr : Bool) :
    (get_namespace_interface cache ns_id intr).spawned = true
      ↔ stdMapFind ns_id cache = none := by
  unfold get_namespace_interface
  cases hf : stdMapFind ns_id cache with
  | none => cases intr <;> simp
  | some e => cases intr <;> simp

theorem get_find_self_isSome
    (cache : List (namespace_id_t × namespace_cache_entry_t))
    (ns_id : namespace_id_t) (intr : Bool) :
    (stdMapFind ns_id (get_namespace_interface cache ns_id intr).cache).isSome
      = true := by
  unfold get_namespace_interface
  cases hf : stdMapFind ns_id cache with
  | none =>
    cases intr <;> simp [stdMapFind_insert_self]
  | some e =>
    cases intr <;> simp [stdMapFind_insert_self, hf]

theorem get_find_other (cache : List (namespace_id_t × namespace_cache_entry_t))
    (ns_id t2 : namespace_id_t) (intr : Bool) (h : t2 ≠ ns_id) :
    stdMapFind t2 (get_namespace_interface cache ns_id intr).cache
      = stdMapFind t2 cache := by
  unfold get_namespace_interface
  cases hf : stdMapFind ns_id cache with
  | none =>
    cases intr <;>
      simp [stdMapFind_insert_ne t2 ns_id _ _ (Ne.symm h),
        stdMapFind_insert_ne t2 ns_id _ cache (Ne.symm h)]
  | some e =>
    cases intr <;> simp [stdMapFind_insert_ne t2 ns_id _ cache (Ne.symm h)]

theorem get_nodup (cache : List (namespace_id_t × namespace_cache_entry_t))
    (ns_id : namespace_id_t) (intr : Bool)
    (hnd : (cache.map Prod.fst).Nodup) :
    (((get_namespace_interface cache ns_id intr).cache).map Prod.fst).Nodup := by
  unfold get_namespace_interface
  cases hf : stdMapFind ns_id cache with
  | none =>
    cases intr <;>
      simp [nodup_keys_stdMapInsert _ _ _ hnd,
        nodup_keys_stdMapInsert _ _ _ (nodup_keys_stdMapInsert _ _ cache hnd)]
  | some e =>
    cases intr <;> simp [hnd, nodup_keys_stdMapInsert _ _ cache hnd]

/-! ## The per-thread repository as a transition system

A worker thread's cache evolves by `get_namespace_interface` calls and
by lifecycle-task terminations (the final `cache->entries.erase` of
`create_and_destroy_namespace_interface`, which also ends the task).
`tasks` is the multiset of table ids with a live lifecycle task on the
thread; `ev_task_finish` is enabled only for a live task, because only a
live task can run its own erase. -/

inductive repo_event where
  | ev_get (tid : namespace_id_t) (interrupted : Bool)
  | ev_task_finish (tid : namespace_id_t)
deriving DecidableEq, Repr

structure repo_state where
  cache : List (namespace_id_t × namespace_cache_entry_t)
  tasks : List namespace_id_t
deriving DecidableEq, Repr

def repo_init : repo_state := ⟨[], []⟩

def repo_step (s : repo_state) : repo_event → repo_state
  | repo_event.ev_get tid intr =>
    let out := get_namespace_interface s.cache tid intr
    ⟨out.cache, if out.spawned then tid :: s.tasks else s.tasks⟩
  | repo_event.ev_task_finish tid =>
    if tid ∈ s.tasks then ⟨stdMapErase tid s.cache, s.tasks.erase tid⟩ else s

def repo_run (evs : List repo_event) : repo_state :=
  evs.foldl repo_step repo_init

/-- The per-thread invariant: cache keys are unique, and a table id has
a live lifecycle task exactly when its entry is in the cache map. -/
def repo_inv (s : repo_state) : Prop :=
  (s.cache.map Prod.fst).Nodup
  ∧ ∀ tid, s.tasks.count tid
      = (if (stdMapFind tid s.cache).isSome then 1 else 0)

theorem repo_inv_step (s : repo_state) (ev : repo_event) (h : repo_inv s) :
    repo_inv (repo_step s ev) := by
  obtain ⟨hnd, hcount⟩ := h
  cases ev with
  | ev_get tid intr =>
    refine ⟨get_nodup s.cache tid intr hnd, ?_⟩
    intro tid2
    show (if (get_namespace_interface s.cache tid intr).spawned then
        tid :: s.tasks else s.tasks).count tid2
      = (if (stdMapFind tid2
            (get_namespace_interface s.cache tid intr).cache).isSome
          then 1 else 0)
    by_cases heq : tid2 = tid
    · subst heq
      by_cases hsp : (get_namespace_interface s.cache tid2 intr).spawned
      · rw [if_pos hsp, List.count_cons_self]
        have hnone := (get_spawned_iff s.cache tid2 intr).mp hsp
        have h0 := hcount tid2
        rw [hnone] at h0
        simp only [Option.isSome_none, Bool.false_eq_true, if_false] at h0
        rw [h0, get_find_self_isSome s.cache tid2 intr]
        simp
      · rw [if_neg hsp]
        have hsome : stdMapFind tid2 s.cache ≠ none := by
          intro hn
          exact hsp ((get_spawned_iff s.cache tid2 intr).mpr hn)
        have h0 := hcount tid2
        cases hf : stdMapFind tid2 s.cache with
        | none => exact absurd hf hsome
        | some e =>
          rw [hf] at h0
          simp only [Option.isSome_some, if_true] at h0
          rw [h0, get_find_self_isSome s.cache tid2 intr]
          simp
    · by_cases hsp : (get_namespace_interface s.cache tid intr).spawned
      · rw [if_pos hsp, List.count_cons_of_ne heq,
          get_find_other s.cache tid tid2 intr heq]
        exact hcount tid2
      · rw [if_neg hsp, get_find_other s.cache tid tid2 intr heq]
        exact hcount tid2
  | ev_task_finish tid =>
    show repo_inv (if tid ∈ s.tasks then
        ⟨stdMapErase tid s.cache, s.tasks.erase tid⟩ else s)
    by_cases htid : tid ∈ s.tasks
    · rw [if_pos htid]
      refine ⟨((stdMapErase_sublist tid s.cache).map Prod.fst).nodup hnd, ?_⟩
      intro tid2
      by_cases heq : tid2 = tid
      · subst heq
        show (s.tasks.erase tid2).count tid2 = _
        rw [List.count_erase_self, hcount tid2,
          stdMapFind_erase_self tid2 s.cache hnd]
        have hpos : 0 < s.tasks.count tid2 := List.count_pos_iff.mpr htid
        rw [hcount tid2] at hpos
        by_cases hf : (stdMapFind tid2 s.cache).isSome
        · simp [hf]
        · rw [if_neg hf] at hpos
          exact absurd hpos (by omega)
      · show (s.tasks.erase tid).count tid2 = _
        rw [List.count_erase_of_ne heq, stdMapFind_erase_ne tid tid2 s.cache heq]
        exact hcount tid2
    · rw [if_neg htid]
      exact ⟨hnd, hcount⟩

theorem repo_inv_run (evs : List repo_event) : repo_inv (repo_run evs) := by
  suffices H : ∀ s, repo_inv s → repo_inv (evs.foldl repo_step s) from
    H repo_init ⟨List.nodup_nil, fun tid => rfl⟩
  induction evs with
  | nil => exact fun s hs => hs
  | cons ev rest ih =>
    intro s hs
    exact ih (repo_step s ev) (repo_inv_step s ev hs)

/-- C5 — `get_namespace_interface` spawns a lifecycle task iff the
requested table id is absent from the current thread's map (a present
entry is reused without spawning), and along every event sequence each
`(thread, TableId)` has at most one live lifecycle task. -/
theorem C5_find_or_create_single_task
    (cache : List (namespace_id_t × namespace_cache_entry_t))
    (ns_id : namespace_id_t) (intr : Bool) (evs : List repo_event)
    (tid : namespace_id_t) :
    ((get_namespace_interface cache ns_id intr).spawned = true
      ↔ stdMapFind ns_id cache = none)
    ∧ (repo_run evs).tasks.count tid ≤ 1 := by
  refine ⟨get_spawned_iff cache ns_id intr, ?_⟩
  obtain ⟨_, hcount⟩ := repo_inv_run evs
  rw [hcount tid]
  by_cases hf : (stdMapFind tid (repo_run evs).cache).isSome <;> simp [hf]

/-! ## The interface slot's pulse discipline

`cache_entry->namespace_interface.pulse(&namespace_interface)` is the
only statement in the subsystem that pulses an entry's promise, it
belongs to the entry's own lifecycle task, and it sits on the
straight-line path after the readiness wait: a task runs it at most once
(`ev_publish` is a no-op outside the startup phase because control never
returns there), and the entry is created with an unpulsed promise, which
the `guarantee(!cache_entry->namespace_interface.get_ready_signal()
->is_pulsed())` checks at task start. -/

inductive task_phase where
  | startup
  | published
  | finished
deriving DecidableEq, Repr

structure task_sim_state where
  slot_pulses : Nat
  phase : task_phase
deriving DecidableEq, Repr

/-- State at task spawn: the entry was just constructed by
`get_namespace_interface` with a fresh (unpulsed) promise. -/
def task_sim_init : task_sim_state := ⟨0, task_phase.startup⟩

inductive task_event where
  | ev_publish
  | ev_finish
deriving DecidableEq, Repr

def task_sim_step (s : task_sim_state) : task_event → task_sim_state
  | task_event.ev_publish =>
    if s.phase = task_phase.startup then
      ⟨s.slot_pulses + 1, task_phase.published⟩
    else s
  | task_event.ev_finish => ⟨s.slot_pulses, task_phase.finished⟩

def task_sim_inv (s : task_sim_state) : Prop :=
  s.slot_pulses ≤ 1 ∧ (s.phase = task_phase.startup → s.slot_pulses = 0)

theorem task_sim_inv_step (s : task_sim_state) (ev : task_event)
    (h : task_sim_inv s) : task_sim_inv (task_sim_step s ev) := by
  obtain ⟨h1, h2⟩ := h
  cases ev with
  | ev_publish =>
    show task_sim_inv (if s.phase = task_phase.startup then
        ⟨s.slot_pulses + 1, task_phase.published⟩ else s)
    by_cases hp : s.phase = task_phase.startup
    · rw [if_pos hp]
      refine ⟨by rw [h2 hp], fun hc => ?_⟩
      exact absurd (show task_phase.published = task_phase.startup from hc)
        (by decide)
    · rw [if_neg hp]
      exact ⟨h1, h2⟩
  | ev_finish =>
    refine ⟨h1, fun hc => ?_⟩
    exact absurd (show task_phase.finished = task_phase.startup from hc)
      (by decide)

/-- C8 — over every event sequence of a lifecycle task, the entry's
interface slot is pulsed at most once (and only by the task's own
publish step, the only pulsing transition of the model); while the task
is still at its start the slot has never been pulsed, so the
`guarantee` that the ready signal is unpulsed at task start never
fails. -/
theorem C8_slot_pulsed_at_most_once (evs : List task_event) :
    (evs.foldl task_sim_step task_sim_init).slot_pulses ≤ 1
    ∧ ((evs.foldl task_sim_step task_sim_init).phase = task_phase.startup →
        (evs.foldl task_sim_step task_sim_init).slot_pulses = 0) := by
  suffices H : ∀ s, task_sim_inv s → task_sim_inv (evs.foldl task_sim_step s) from
    H task_sim_init ⟨by decide, fun _ => rfl⟩
  induction evs with
  | nil => exact fun s hs => hs
  | cons ev rest ih =>
    intro s hs
    exact ih (task_sim_step s ev) (task_sim_inv_step s ev hs)

/-- Witness for C8: after a publish, a finish, and a stray publish the
slot still counts one pulse; the empty run is at task start with zero
pulses. -/
theorem C8_slot_pulsed_at_most_once_witness :
    ([task_event.ev_publish, task_event.ev_finish,
        task_event.ev_publish].foldl task_sim_step task_sim_init).slot_pulses ≤ 1
    ∧ (([] : List task_event).foldl task_sim_step task_sim_init).slot_pulses
        = 0 :=
  ⟨(C8_slot_pulsed_at_most_once
      [task_event.ev_publish, task_event.ev_finish, task_event.ev_publish]).1,
   (C8_slot_pulsed_at_most_once []).2 rfl⟩

/-- Witness for C5: a cold get spawns; two gets for the same table still
leave at most one live task. -/
theorem C5_find_or_create_single_task_witness :
    (get_namespace_interface [] 3 false).spawned = true
    ∧ (repo_run [repo_event.ev_get 3 false,
        repo_event.ev_get 3 false]).tasks.count 3 ≤ 1 :=
  ⟨((C5_find_or_create_single_task [] 3 false [] 0).1).mpr rfl,
   (C5_find_or_create_single_task [] 3 false
      [repo_event.ev_get 3 false, repo_event.ev_get 3 false] 3).2⟩
